import Mathlib

/-!
# ShopRoute: classification-resolution pipeline and store-layout ordering

A shallow embedding of the grocery classification/ordering core
(`backend/app/organize.py`, `backend/app/db.py`) together with proofs of the
behavioural properties stated in the specification.

The SQLite-backed item cache is modelled as an association list of
`(item_key, record)` rows in table order; the relational store layout tables
are modelled as lists of rows.  The remote text-classification service is a
pure oracle parameter: each model tier's call is represented by its outcome
(`OK` with the parsed fenced-JSON payload, `RESOURCE_EXHAUSTED`, `EXCEPTION`,
or `NO_CLIENT`), which is exactly the boundary the adapter exposes to the
core.  Python string operations (`strip`, `lower`, `title`, `split`, `in`,
slicing) are embedded as character-list functions below.
-/

/-- Embedding of Python `str.strip()` at the character-list level:
drop leading and trailing whitespace. -/
def stripChars (l : List Char) : List Char :=
  ((l.dropWhile Char.isWhitespace).reverse.dropWhile Char.isWhitespace).reverse

/-- Embedding of Python `str.strip()`. -/
def pyStrip (s : String) : String :=
  String.mk (stripChars s.data)

/-- Embedding of Python `str.lower()` (ASCII, as used by the program). -/
def pyLower (s : String) : String :=
  String.mk (s.data.map Char.toLower)

/-- One step of Python `str.title()`: the Boolean argument records whether the
previous character was cased (alphabetic). -/
def titleChars : Bool → List Char → List Char
  | _, [] => []
  | prevCased, c :: cs =>
    if c.isAlpha then
      (if prevCased then c.toLower else c.toUpper) :: titleChars true cs
    else
      c :: titleChars false cs

/-- Embedding of Python `str.title()`. -/
def pyTitle (s : String) : String :=
  String.mk (titleChars false s.data)

/-- Worker for Python `str.split()` with no separator: split on whitespace
runs, discarding empty pieces.  `acc` holds the current word reversed. -/
def splitWsGo : List Char → List Char → List String
  | [], acc => if acc.isEmpty then [] else [String.mk acc.reverse]
  | c :: cs, acc =>
    if c.isWhitespace then
      if acc.isEmpty then splitWsGo cs [] else String.mk acc.reverse :: splitWsGo cs []
    else
      splitWsGo cs (c :: acc)

/-- Embedding of Python `str.split()` (no argument). -/
def pySplit (s : String) : List String :=
  splitWsGo s.data []

/-- Embedding of Python `' '.join(...)`. -/
def joinSpace : List String → String
  | [] => ""
  | [w] => w
  | w :: ws => w ++ " " ++ joinSpace ws

/-- Python `' '.join(name.split()[:3])`: keep the first three whitespace-separated
tokens, as the program does for normalized names. -/
def truncate3 (s : String) : String :=
  joinSpace ((pySplit s).take 3)

/-- Substring test on character lists: some suffix of `h` starts with `n`. -/
def containsSub (n : List Char) : List Char → Bool
  | [] => n.isEmpty
  | c :: t => n.isPrefixOf (c :: t) || containsSub n t

/-- Embedding of Python `needle in haystack` for strings. -/
def strContains (haystack needle : String) : Bool :=
  containsSub needle.data haystack.data

/-- Embedding of Python `s[:4]`. -/
def slice4 (s : String) : String :=
  String.mk (s.data.take 4)

example : pyTitle "ice cream sandwich" = "Ice Cream Sandwich" := by decide
example : pyStrip "  milk " = "milk" := by decide
example : pyLower "Greek YOGurt" = "greek yogurt" := by decide
example : pySplit " a  bb c d " = ["a", "bb", "c", "d"] := by decide
example : truncate3 "One Two Three Four" = "One Two Three" := by decide
example : strContains "ice cream sandwich" "cream" = true := by decide
example : strContains "ice cream sandwich" "cod" = false := by decide
example : slice4 "Miscellaneous" = "Misc" := by decide

/-! ## Classification cache (`db.py`: `item_cache` table) -/

/-- A row of the `item_cache` table (the `created_at` column is never read). -/
structure CacheRecord where
  category : String
  normalized_name : String
  source : String
deriving DecidableEq, Repr

/-- The `item_cache` table: `(item_key, record)` rows in table order.
`item` is the primary key, so well-formed states have distinct keys. -/
abbrev Cache := List (String × CacheRecord)

/-- Source `db.normalize_item_key`: `item.strip().lower()`. -/
def normalize_item_key (item : String) : String :=
  pyLower (pyStrip item)

/-- Source `db.get_cached_item`: `SELECT category, normalized_name, source FROM
item_cache WHERE item = ?` (no normalization of the argument). -/
def get_cached_item (c : Cache) (item : String) : Option CacheRecord :=
  (c.find? (fun p => p.1 == item)).map Prod.snd

/-- Source `db.cache_item`: upsert keyed on `normalize_item_key item`; on conflict the
row is updated only `WHERE item_cache.source != 'manual'`. -/
def cache_item (c : Cache) (item category normalized_name source : String) : Cache :=
  let key := normalize_item_key item
  match get_cached_item c key with
  | none => c ++ [(key, ⟨category, normalized_name, source⟩)]
  | some r =>
    if r.source = "manual" then c
    else c.map (fun p => if p.1 == key then (key, ⟨category, normalized_name, source⟩) else p)

/-- Source `db.override_item`: `INSERT OR REPLACE` with source `'manual'` — the old
row for the key is deleted and the new row inserted unconditionally. -/
def override_item (c : Cache) (item category normalized_name : String) : Cache :=
  let key := normalize_item_key item
  c.filter (fun p => !(p.1 == key)) ++ [(key, ⟨category, normalized_name, "manual"⟩)]

/-! ## Heuristic keyword classifier (`organize.py`) -/

/-- Source `organize.HEURISTIC_BUCKETS`, in source order. -/
def HEURISTIC_BUCKETS : List (String × List String) := [
  ("Meat", ["chicken", "beef", "pork", "steak", "bacon", "sausage", "turkey", "ham", "lamb"]),
  ("Seafood", ["salmon", "shrimp", "tuna", "cod", "crab", "lobster", "scallop"]),
  ("Produce", ["banana", "apple", "spinach", "lettuce", "tomato", "onion", "potato", "carrot", "berry", "fruit", "vegetable"]),
  ("Dairy", ["milk", "yogurt", "cheese", "butter", "cream", "eggs", "egg"]),
  ("Bakery", ["bread", "bagel", "sourdough", "bun", "roll", "croissant"]),
  ("Frozen", ["ice cream", "popsicle", "frozen", "ice-cream", "icecream"]),
  ("Pantry", ["rice", "pasta", "canned", "beans", "sauce", "oil", "vinegar", "flour", "sugar", "spice", "cereal"]),
  ("Snacks", ["chip", "chips", "cracker", "cookie", "chocolate", "popcorn", "granola"]),
  ("Beverages", ["juice", "soda", "cola", "water", "beer", "wine", "coffee", "tea"]),
  ("Household", ["detergent", "paper towel", "toilet paper", "trash bag", "cleaner", "bleach", "dish soap"]),
  ("Personal Care", ["shampoo", "soap", "toothpaste", "deodorant", "razor", "lotion", "conditioner"])]

/-- Source `organize.ALLOWED_CATEGORIES` (the closed 12-category set). -/
def ALLOWED_CATEGORIES : List String :=
  ["Produce", "Meat", "Seafood", "Dairy", "Bakery", "Frozen", "Pantry",
   "Snacks", "Beverages", "Household", "Personal Care", "Misc"]

/-- Source `organize._prettify_name`: `name.strip().title()`. -/
def prettify_name (s : String) : String :=
  pyTitle (pyStrip s)

/-- Python `sorted(keywords, key=len, reverse=True)`: stable sort, longest first. -/
def sortLenDesc (l : List String) : List String :=
  List.insertionSort (fun a b => b.length ≤ a.length) l

/-- The keyword fallback loop at the end of `ai_fallback_classify`: scan the
buckets in order, checking each bucket's keywords longest-first for substring
containment in `lowered`; the first matching bucket's category is returned
with the prettified, 3-token-truncated item; default `Misc`. -/
def heuristic_scan (lowered item : String) : String × String :=
  match HEURISTIC_BUCKETS.find? (fun b => (sortLenDesc b.2).any (fun kw => strContains lowered kw)) with
  | some b => (b.1, truncate3 (prettify_name item))
  | none => ("Misc", truncate3 (prettify_name item))

example : heuristic_scan "ice cream sandwich" "ice cream sandwich" = ("Dairy", "Ice Cream Sandwich") := by decide
example : heuristic_scan "milk" "milk" = ("Dairy", "Milk") := by decide
example : heuristic_scan "quirky item" "quirky item" = ("Misc", "Quirky Item") := by decide
example : heuristic_scan "salmon fillet" "salmon fillet" = ("Seafood", "Salmon Fillet") := by decide

/-! ## External classification adapter (`organize._call_llm` boundary)

`_call_llm` performs the remote call and maps its outcome onto the tags
`OK / RESOURCE_EXHAUSTED / EXCEPTION / NO_CLIENT`; on `OK` the response text
is fed to `_parse_dict_from_ai_response`, which extracts one fenced JSON
block and yields a dict or `None`.  We model each tier's call by this
observable outcome: `ok parsed` carries the parse result of the returned
text (`none` for an absent fence / invalid JSON / empty dict, which the code
treats identically via `if data_dict:`). -/

/-- The parsed JSON payload: Python `dict.get` yields `None` for a missing
field, modelled by `Option`. -/
structure AiDict where
  category : Option String
  normalized_name : Option String
deriving DecidableEq, Repr

/-- Outcome of one `_call_llm` invocation, with the parse of its text. -/
inductive LLMResult where
  | ok (parsed : Option AiDict)
  | resourceExhausted
  | exception
  | noClient
deriving DecidableEq, Repr

/-- The remote service's behaviour for the three model tiers used on one
item (each tier is called at most once per run). -/
structure Oracle where
  primary : LLMResult
  alternative : LLMResult
  upgrade : LLMResult
deriving DecidableEq, Repr

/-- The service when the `google.genai` import fails everywhere (also the
shape used when no credential is configured and no call is ever made). -/
def oracleOffline : Oracle :=
  ⟨LLMResult.noClient, LLMResult.noClient, LLMResult.noClient⟩

/-- Source `_prettify_name(d.get(k))`: raises `AttributeError` when the field is
missing (`None.strip()`), modelled as `Except.error`. -/
def prettifyField : Option String → Except Unit String
  | none => Except.error ()
  | some s => Except.ok (prettify_name s)

instance {ε α : Type} [DecidableEq ε] [DecidableEq α] : DecidableEq (Except ε α) := fun x y =>
  match x, y with
  | Except.ok a, Except.ok b =>
    if h : a = b then Decidable.isTrue (by rw [h]) else Decidable.isFalse (by simp [h])
  | Except.error a, Except.error b =>
    if h : a = b then Decidable.isTrue (by rw [h]) else Decidable.isFalse (by simp [h])
  | Except.ok _, Except.error _ => Decidable.isFalse (by simp)
  | Except.error _, Except.ok _ => Decidable.isFalse (by simp)

/-- Result of one run of `ai_fallback_classify`, with the number of external
calls made against each model tier.  `result` is `Except.error ()` when the
Python function raises (missing dict field). -/
structure AiRun where
  result : Except Unit (String × String)
  primaryCalls : Nat
  altCalls : Nat
  upgradeCalls : Nat
deriving DecidableEq, Repr

/-- Final validation and return in `ai_fallback_classify`: if the category is
allowed, return it with the truncated name, otherwise fall through to the
keyword heuristic. -/
def finishValidate (cat norm lowered item : String) : String × String :=
  if ALLOWED_CATEGORIES.contains cat then (cat, truncate3 norm)
  else heuristic_scan lowered item

/-- The quota-retry step: `if status == 'RESOURCE_EXHAUSTED'` re-issue the
same prompt against the alternative model; the second component counts the
alternative-model calls made (0 or 1). -/
def retryResult (o : Oracle) : LLMResult × Nat :=
  match o.primary with
  | LLMResult.resourceExhausted => (o.alternative, 1)
  | r => (r, 0)

/-- Source `if status == 'OK': data_dict = _parse_dict_from_ai_response(...)` with
`data_dict` previously `None`. -/
def parsedDict : LLMResult → Option AiDict
  | LLMResult.ok d => d
  | _ => none

/-- Source `organize.ai_fallback_classify`.  `api_key` is whether `GEMENI_FREE_API`
is set.  Mirrors the source: primary call; on `RESOURCE_EXHAUSTED` one retry
against the alternative model; on a truthy parsed dict, prettify the two
fields (raising on a missing field); if the prettified category starts with
`"Misc"` (`cat[:4] == 'Misc'`), one upgrade call whose parsed dict (if any)
replaces `cat`/`norm`; finally validate against `ALLOWED_CATEGORIES` or fall
through to the keyword heuristic, which is also the path when no key is set,
the call failed, or nothing parsed. -/
def ai_fallback_classify (api_key : Bool) (o : Oracle) (item : String) : AiRun :=
  let lowered := pyLower (pyStrip item)
  if api_key then
    let afterAlt : LLMResult × Nat := retryResult o
    let altCalls := afterAlt.2
    let dict : Option AiDict := parsedDict afterAlt.1
    match dict with
    | none => ⟨Except.ok (heuristic_scan lowered item), 1, altCalls, 0⟩
    | some d =>
      match prettifyField d.category with
      | Except.error _ => ⟨Except.error (), 1, altCalls, 0⟩
      | Except.ok cat0 =>
        match prettifyField d.normalized_name with
        | Except.error _ => ⟨Except.error (), 1, altCalls, 0⟩
        | Except.ok norm0 =>
          if slice4 cat0 = "Misc" then
            match o.upgrade with
            | LLMResult.ok (some d2) =>
              match prettifyField d2.category with
              | Except.error _ => ⟨Except.error (), 1, altCalls, 1⟩
              | Except.ok cat2 =>
                match prettifyField d2.normalized_name with
                | Except.error _ => ⟨Except.error (), 1, altCalls, 1⟩
                | Except.ok norm2 =>
                  ⟨Except.ok (finishValidate cat2 norm2 lowered item), 1, altCalls, 1⟩
            | LLMResult.ok none =>
              ⟨Except.ok (finishValidate cat0 norm0 lowered item), 1, altCalls, 1⟩
            | _ =>
              ⟨Except.ok (finishValidate cat0 norm0 lowered item), 1, altCalls, 1⟩
          else
            ⟨Except.ok (finishValidate cat0 norm0 lowered item), 1, altCalls, 0⟩
  else
    ⟨Except.ok (heuristic_scan lowered item), 0, 0, 0⟩

/-! ## Classification resolver (`organize.classify_item_with_cache`) -/

/-- Outcome of one resolution: the returned triple, the cache afterwards, and
the number of `cache_item` writes issued. -/
structure ResolveOut where
  result : String × String × String
  cache : Cache
  writes : Nat
deriving DecidableEq, Repr

/-- Source `organize.classify_item_with_cache`: cache lookup on the normalized key;
on hit return the record verbatim; on miss run `ai_fallback_classify`,
persist non-`Misc` results with source `"ai"`, and catch any exception with
the `(Misc, prettified key, "fallback")` degradation. -/
def classify_item_with_cache (api_key : Bool) (o : Oracle) (c : Cache) (item : String) : ResolveOut :=
  let item_key := normalize_item_key item
  match get_cached_item c item_key with
  | some r => ⟨(r.category, r.normalized_name, r.source), c, 0⟩
  | none =>
    match (ai_fallback_classify api_key o item).result with
    | Except.ok (category, norm) =>
      if category ≠ "Misc" then
        ⟨(category, norm, "ai"), cache_item c item_key category norm "ai", 1⟩
      else
        ⟨(category, norm, "ai"), c, 0⟩
    | Except.error _ => ⟨("Misc", prettify_name item_key, "fallback"), c, 0⟩

example :
    (ai_fallback_classify false ⟨LLMResult.noClient, LLMResult.noClient, LLMResult.noClient⟩ "ice cream sandwich").result
      = Except.ok ("Dairy", "Ice Cream Sandwich") := by decide

example :
    classify_item_with_cache false ⟨LLMResult.noClient, LLMResult.noClient, LLMResult.noClient⟩ [] "Milk"
      = ⟨("Dairy", "Milk", "ai"), [("milk", ⟨"Dairy", "Milk", "ai"⟩)], 1⟩ := by decide

example :
    classify_item_with_cache false ⟨LLMResult.noClient, LLMResult.noClient, LLMResult.noClient⟩ [] "quirky item"
      = ⟨("Misc", "Quirky Item", "ai"), [], 0⟩ := by decide

/-! ## Store layout resolver (`db.py`: stores / locations / zones tables) -/

/-- A row of `stores` (`name` is declared UNIQUE). -/
structure StoreRow where
  store_id : Nat
  name : String
  chain : Option String
deriving DecidableEq, Repr

/-- A row of `store_locations`. -/
structure LocationRow where
  location_id : Nat
  store_id : Nat
  city : Option String
  state : Option String
  postal_code : Option String
deriving DecidableEq, Repr

/-- A row of `store_zones` (`(location_id, zone_order)` UNIQUE). -/
structure ZoneRow where
  zone_id : Nat
  location_id : Nat
  zone_name : String
  zone_order : Int
deriving DecidableEq, Repr

/-- A row of `zone_categories` (`(zone_id, category)` PRIMARY KEY). -/
structure ZoneCatRow where
  zone_id : Nat
  category : String
deriving DecidableEq, Repr

/-- The relational store, rows in table (rowid) order. -/
structure DB where
  stores : List StoreRow
  locations : List LocationRow
  zones : List ZoneRow
  zone_categories : List ZoneCatRow
deriving DecidableEq, Repr

/-- Source `db.get_store_id` with no postal code: `SELECT store_id FROM stores WHERE
name = ? LIMIT 1`; raises `ValueError` (here `Except.error`) when no row
matches.  (With a postal code the query instead joins `store_locations`.) -/
def get_store_id (db : DB) (store_name : String) : Except Unit Nat :=
  match (db.stores.filter (fun s => s.name == store_name)).head? with
  | some s => Except.ok s.store_id
  | none => Except.error ()

/-- The join in `db.get_store_layout`: `stores ⋈ store_locations ⋈
store_zones ⋈ zone_categories` restricted to `store_id`, producing
`(zone_name, zone_order, category)` rows in nested-loop order.  Note the
query has no `location_id` filter: every location of the store contributes. -/
def layout_rows (db : DB) (store_id : Nat) : List (String × Int × String) :=
  (db.stores.filter (fun s => s.store_id == store_id)).flatMap (fun s =>
    (db.locations.filter (fun sl => sl.store_id == s.store_id)).flatMap (fun sl =>
      (db.zones.filter (fun sz => sz.location_id == sl.location_id)).flatMap (fun sz =>
        (db.zone_categories.filter (fun zc => zc.zone_id == sz.zone_id)).map (fun zc =>
          (sz.zone_name, sz.zone_order, zc.category)))))

/-- Append `v` under key `k` in an insertion-ordered association list of
lists, creating the key at the end if absent: the behaviour of
`OrderedDict`/`defaultdict(list)` grouping in the source. -/
def appendUnder (g : List (String × List String)) (k v : String) : List (String × List String) :=
  if g.any (fun p => p.1 == k) then
    g.map (fun p => if p.1 == k then (p.1, p.2 ++ [v]) else p)
  else
    g ++ [(k, [v])]

/-- Source `db.get_store_layout` for a `store_id`: run the join `ORDER BY zone_order
ASC` (stable sort over the scan order) and group categories under zone names
in first-seen order via an `OrderedDict`. -/
def get_store_layout (db : DB) (store_id : Nat) : List (String × List String) :=
  let rows := List.insertionSort (fun a b : String × Int × String => a.2.1 ≤ b.2.1) (layout_rows db store_id)
  rows.foldl (fun zones row => appendUnder zones row.1 row.2.2) []

/-! ## Grouping and ordering engine (`organize.order_items`) -/

/-- Source `organize.GENERIC_LAYOUT`. -/
def GENERIC_LAYOUT : List (String × List String) := [
  ("Produce", ["Produce"]),
  ("Meat & Seafood", ["Meat", "Seafood", "Deli"]),
  ("Bakery", ["Bakery"]),
  ("Dairy", ["Dairy"]),
  ("Frozen", ["Frozen"]),
  ("Pantry", ["Pantry"]),
  ("Snacks", ["Snacks"]),
  ("Beverages", ["Beverages"]),
  ("Household", ["Household"]),
  ("Personal Care", ["Personal Care"])]

/-- Flatten a `(zone, categories)` layout into a category priority list,
keeping only the first occurrence of each category (the `seen` set loop). -/
def flatten_layout (db_layout : List (String × List String)) : List String :=
  db_layout.foldl (fun acc p =>
    p.2.foldl (fun acc c => if acc.contains c then acc else acc ++ [c]) acc) []

/-- Look up a category's item list in the grouped association list. -/
def groupLookup (g : List (String × List String)) (cat : String) : Option (List String) :=
  (g.find? (fun p => p.1 == cat)).map Prod.snd

/-- The classification loop of `order_items`: classify each item through the
cache-backed resolver (threading the cache) and group normalized names by
category in insertion order. -/
def group_items (api_key : Bool) (o : Oracle) : List (String × List String) × Cache → List String → List (String × List String) × Cache
  | acc, [] => acc
  | (g, c), item :: rest =>
    let out := classify_item_with_cache api_key o c item
    group_items api_key o (appendUnder g out.result.1 out.result.2.1, out.cache) rest

/-- The output-building tail of `order_items`: first the flattened-layout
categories that have a group, then the remaining grouped categories sorted
lexicographically (`sorted(remaining)` — Python sorts strings by code
point, as does `≤` on `String`). -/
def emit_groups (layout : List String) (grouped : List (String × List String)) : List (String × List String) :=
  let inLayout := layout.filterMap (fun cat => (groupLookup grouped cat).map (fun xs => (cat, xs)))
  let remaining := (grouped.map Prod.fst).filter (fun cat => !(layout.contains cat))
  inLayout ++ (List.insertionSort (fun a b : String => a ≤ b) remaining).map (fun cat => (cat, (groupLookup grouped cat).getD []))

/-- Source `organize.order_items`: layout from the DB when a `store_id` is given
(`GENERIC_LAYOUT` otherwise), flattened; items classified and grouped; groups
emitted in flattened-layout order, then the remaining categories sorted
lexicographically. -/
def order_items (db : DB) (store_id : Option Nat) (api_key : Bool) (o : Oracle) (c : Cache) (items : List String) : List (String × List String) :=
  let db_layout := match store_id with
    | some sid => get_store_layout db sid
    | none => GENERIC_LAYOUT
  let layout := flatten_layout db_layout
  let grouped := (group_items api_key o ([], c) items).1
  emit_groups layout grouped

example : flatten_layout [("Zone1", ["Produce"]), ("Zone2", ["Bakery", "Dairy"])] = ["Produce", "Bakery", "Dairy"] := by decide

example :
    order_items ⟨[], [], [], []⟩ none false ⟨LLMResult.noClient, LLMResult.noClient, LLMResult.noClient⟩ []
      ["Bananas", "spinach", "sour dough", "greek yogurt", "ice cream", "milk"]
      = [("Produce", ["Bananas", "Spinach"]), ("Dairy", ["Greek Yogurt", "Ice Cream", "Milk"]),
         ("Misc", ["Sour Dough"])] := by decide

/-! ## Character-level lemmas: `lower` and whitespace -/

theorem char_toNat_ofNat {n : Nat} (h : n.isValidChar) : (Char.ofNat n).toNat = n := by
  rw [Char.ofNat, dif_pos h]
  rfl

theorem char_eq_iff_toNat {c d : Char} : c = d ↔ c.toNat = d.toNat :=
  ⟨fun h => by rw [h], fun h => Char.eq_of_val_eq (UInt32.ext h)⟩

theorem toLower_toNat (c : Char) :
    c.toLower.toNat = if 65 ≤ c.toNat ∧ c.toNat ≤ 90 then c.toNat + 32 else c.toNat := by
  simp only [Char.toLower]
  by_cases h : 65 ≤ c.toNat ∧ c.toNat ≤ 90
  · rw [if_pos h, if_pos h]
    exact char_toNat_ofNat (Or.inl (by omega))
  · rw [if_neg h, if_neg h]

theorem toLower_eq_self {c : Char} (h : ¬(65 ≤ c.toNat ∧ c.toNat ≤ 90)) : c.toLower = c := by
  simp only [Char.toLower]
  rw [if_neg h]

theorem isWhitespace_toNat (c : Char) :
    c.isWhitespace
      = (decide (c.toNat = 32) || decide (c.toNat = 9) || decide (c.toNat = 13) || decide (c.toNat = 10)) := by
  simp only [Char.isWhitespace, char_eq_iff_toNat]
  rfl

theorem isWhitespace_toLower (c : Char) : c.toLower.isWhitespace = c.isWhitespace := by
  rw [isWhitespace_toNat, isWhitespace_toNat, toLower_toNat]
  by_cases h : 65 ≤ c.toNat ∧ c.toNat ≤ 90
  · rw [if_pos h]
    obtain ⟨h1, h2⟩ := h
    rw [decide_eq_false (by omega : ¬(c.toNat + 32 = 32)),
        decide_eq_false (by omega : ¬(c.toNat + 32 = 9)),
        decide_eq_false (by omega : ¬(c.toNat + 32 = 13)),
        decide_eq_false (by omega : ¬(c.toNat + 32 = 10)),
        decide_eq_false (by omega : ¬(c.toNat = 32)),
        decide_eq_false (by omega : ¬(c.toNat = 9)),
        decide_eq_false (by omega : ¬(c.toNat = 13)),
        decide_eq_false (by omega : ¬(c.toNat = 10))]
  · rw [if_neg h]

theorem toLower_toLower (c : Char) : c.toLower.toLower = c.toLower := by
  apply toLower_eq_self
  rw [toLower_toNat]
  by_cases h : 65 ≤ c.toNat ∧ c.toNat ≤ 90
  · rw [if_pos h]
    omega
  · rw [if_neg h]
    exact h

/-! ## Idempotence of key normalization -/

theorem dropWhile_head_not {p : α → Bool} :
    ∀ (l : List α) (x : α) (w : List α), l.dropWhile p = x :: w → p x = false := by
  intro l
  induction l with
  | nil => intro x w h; simp [List.dropWhile] at h
  | cons a t ih =>
    intro x w h
    rw [List.dropWhile_cons] at h
    by_cases hp : p a
    · rw [if_pos hp] at h
      exact ih x w h
    · rw [if_neg hp] at h
      cases h
      exact Bool.of_not_eq_true hp

theorem comp_isWhitespace_toLower :
    (Char.isWhitespace ∘ Char.toLower) = Char.isWhitespace := by
  funext c
  simp [Function.comp, isWhitespace_toLower]

theorem map_toLower_dropWhile (l : List Char) :
    (l.map Char.toLower).dropWhile Char.isWhitespace
      = (l.dropWhile Char.isWhitespace).map Char.toLower := by
  rw [List.dropWhile_map, comp_isWhitespace_toLower]

theorem stripChars_map_toLower (l : List Char) :
    stripChars (l.map Char.toLower) = (stripChars l).map Char.toLower := by
  simp only [stripChars, map_toLower_dropWhile, ← List.map_reverse]

theorem stripChars_dropWhile_self (l : List Char) :
    (stripChars l).dropWhile Char.isWhitespace = stripChars l := by
  unfold stripChars
  cases hv : ((l.dropWhile Char.isWhitespace).reverse.dropWhile Char.isWhitespace).reverse with
  | nil => simp
  | cons x w =>
    have hsuf : (((l.dropWhile Char.isWhitespace).reverse.dropWhile Char.isWhitespace).reverse).reverse
        <:+ (l.dropWhile Char.isWhitespace).reverse := by
      rw [List.reverse_reverse]
      exact List.dropWhile_suffix _
    have hpre : ((l.dropWhile Char.isWhitespace).reverse.dropWhile Char.isWhitespace).reverse
        <+: l.dropWhile Char.isWhitespace := List.reverse_suffix.mp hsuf
    rw [hv] at hpre
    obtain ⟨t, ht⟩ := hpre
    have hx : Char.isWhitespace x = false := by
      apply dropWhile_head_not l x (w ++ t)
      rw [← ht]
      rfl
    simp [List.dropWhile_cons, hx]

theorem stripChars_idem (l : List Char) : stripChars (stripChars l) = stripChars l := by
  conv_lhs => rw [stripChars]
  rw [stripChars_dropWhile_self]
  unfold stripChars
  rw [List.reverse_reverse, List.dropWhile_idempotent]

theorem comp_toLower_toLower : (Char.toLower ∘ Char.toLower) = Char.toLower := by
  funext c
  simp [Function.comp, toLower_toLower]

theorem normalize_item_key_idem (item : String) :
    normalize_item_key (normalize_item_key item) = normalize_item_key item := by
  unfold normalize_item_key pyLower pyStrip
  simp only
  rw [stripChars_map_toLower, stripChars_idem, List.map_map, comp_toLower_toLower]

/-! ## Cache lemmas -/

theorem get_cached_item_cons (p : String × CacheRecord) (c : Cache) (k : String) :
    get_cached_item (p :: c) k = if p.1 == k then some p.2 else get_cached_item c k := by
  cases h : (p.1 == k) <;> simp [get_cached_item, List.find?, h]

theorem get_cached_item_append_left {c : Cache} {k : String} {r : CacheRecord}
    (h : get_cached_item c k = some r) (l : Cache) :
    get_cached_item (c ++ l) k = some r := by
  induction c with
  | nil => simp [get_cached_item] at h
  | cons p t ih =>
    rw [get_cached_item_cons] at h
    rw [List.cons_append, get_cached_item_cons]
    by_cases hp : (p.1 == k) = true
    · rw [if_pos hp] at h ⊢
      exact h
    · rw [if_neg hp] at h ⊢
      exact ih h

theorem get_cached_item_append_none {c : Cache} {k : String}
    (h : get_cached_item c k = none) (l : Cache) :
    get_cached_item (c ++ l) k = get_cached_item l k := by
  induction c with
  | nil => rfl
  | cons p t ih =>
    rw [get_cached_item_cons] at h
    rw [List.cons_append, get_cached_item_cons]
    by_cases hp : (p.1 == k) = true
    · rw [if_pos hp] at h
      exact absurd h (by simp)
    · rw [if_neg hp] at h ⊢
      exact ih h

theorem get_cached_item_map_update {c : Cache} {key : String} {r2 : CacheRecord} {k : String}
    (hne : k ≠ key) :
    get_cached_item (c.map (fun p => if p.1 == key then (key, r2) else p)) k
      = get_cached_item c k := by
  induction c with
  | nil => rfl
  | cons p t ih =>
    rw [List.map_cons, get_cached_item_cons, get_cached_item_cons]
    by_cases hp : (p.1 == key) = true
    · rw [if_pos hp]
      have hpk : p.1 = key := by simpa using hp
      have h1 : ((key, r2).1 == k) = false := by
        simp
        exact fun h => hne h.symm
      have h2 : (p.1 == k) = false := by
        simp [hpk]
        exact fun h => hne h.symm
      rw [h1]
      simp only [Bool.false_eq_true, if_false]
      rw [h2]
      simp only [Bool.false_eq_true, if_false]
      exact ih
    · rw [if_neg hp]
      by_cases hpk : (p.1 == k) = true
      · rw [if_pos hpk, if_pos hpk]
      · rw [if_neg hpk, if_neg hpk]
        exact ih

theorem get_cached_item_map_update_self {c : Cache} {key : String} {r2 : CacheRecord} {r : CacheRecord}
    (h : get_cached_item c key = some r) :
    get_cached_item (c.map (fun p => if p.1 == key then (key, r2) else p)) key = some r2 := by
  induction c with
  | nil => simp [get_cached_item] at h
  | cons p t ih =>
    rw [get_cached_item_cons] at h
    rw [List.map_cons, get_cached_item_cons]
    by_cases hp : (p.1 == key) = true
    · rw [if_pos hp]
      simp
    · rw [if_neg hp] at h
      rw [if_neg hp]
      by_cases hpk : (p.1 == key) = true
      · exact absurd hpk hp
      · rw [if_neg hpk]
        exact ih h

theorem cache_item_miss {c : Cache} {item : String}
    (h : get_cached_item c (normalize_item_key item) = none)
    (category normalized_name source : String) :
    cache_item c item category normalized_name source
      = c ++ [(normalize_item_key item, ⟨category, normalized_name, source⟩)] := by
  unfold cache_item
  simp only
  rw [h]

theorem cache_item_hit {c : Cache} {item : String} {r2 : CacheRecord}
    (h : get_cached_item c (normalize_item_key item) = some r2)
    (category normalized_name source : String) :
    cache_item c item category normalized_name source
      = if r2.source = "manual" then c
        else c.map (fun p => if p.1 == normalize_item_key item
          then (normalize_item_key item, ⟨category, normalized_name, source⟩) else p) := by
  unfold cache_item
  simp only
  rw [h]

theorem cache_item_manual_frame {c : Cache} {k : String} {r : CacheRecord}
    (hk : get_cached_item c k = some r) (hman : r.source = "manual")
    (item category normalized_name source : String) :
    get_cached_item (cache_item c item category normalized_name source) k = some r := by
  cases hl : get_cached_item c (normalize_item_key item) with
  | none =>
    rw [cache_item_miss hl]
    exact get_cached_item_append_left hk _
  | some r2 =>
    rw [cache_item_hit hl]
    by_cases hm : r2.source = "manual"
    · rw [if_pos hm]
      exact hk
    · rw [if_neg hm]
      have hne : k ≠ normalize_item_key item := by
        intro he
        rw [he, hl] at hk
        cases hk
        exact hm hman
      rw [get_cached_item_map_update hne]
      exact hk

theorem get_cached_item_singleton (key k : String) (r : CacheRecord) :
    get_cached_item [(key, r)] k = if key == k then some r else none := by
  rw [get_cached_item_cons]
  rfl

/-! ## `title` is insensitive to prior lowercasing -/

theorem isUpper_toNat (c : Char) : c.isUpper = (decide (65 ≤ c.toNat) && decide (c.toNat ≤ 90)) := by
  simp only [Char.isUpper]
  congr 1

theorem isLower_toNat (c : Char) : c.isLower = (decide (97 ≤ c.toNat) && decide (c.toNat ≤ 122)) := by
  simp only [Char.isLower]
  congr 1

theorem toUpper_toNat (c : Char) :
    c.toUpper.toNat = if 97 ≤ c.toNat ∧ c.toNat ≤ 122 then c.toNat - 32 else c.toNat := by
  simp only [Char.toUpper]
  by_cases h : 97 ≤ c.toNat ∧ c.toNat ≤ 122
  · rw [if_pos h, if_pos h]
    exact char_toNat_ofNat (Or.inl (by omega))
  · rw [if_neg h, if_neg h]

theorem toUpper_toLower (c : Char) : c.toLower.toUpper = c.toUpper := by
  by_cases h : 65 ≤ c.toNat ∧ c.toNat ≤ 90
  · apply char_eq_iff_toNat.mpr
    have hl : c.toLower.toNat = c.toNat + 32 := by
      rw [toLower_toNat, if_pos h]
    rw [toUpper_toNat, toUpper_toNat, hl]
    rw [if_pos (by omega), if_neg (by omega)]
    omega
  · rw [toLower_eq_self h]

theorem isAlpha_toLower (c : Char) : c.toLower.isAlpha = c.isAlpha := by
  simp only [Char.isAlpha, isUpper_toNat, isLower_toNat, toLower_toNat]
  by_cases h : 65 ≤ c.toNat ∧ c.toNat ≤ 90
  · rw [if_pos h]
    obtain ⟨h1, h2⟩ := h
    rw [decide_eq_true (by omega : 97 ≤ c.toNat + 32),
        decide_eq_true (by omega : c.toNat + 32 ≤ 122),
        decide_eq_true h1, decide_eq_true h2]
    simp
  · rw [if_neg h]

theorem not_alpha_toLower {c : Char} (h : c.isAlpha = false) : c.toLower = c := by
  apply toLower_eq_self
  intro hc
  obtain ⟨h1, h2⟩ := hc
  have hu : c.isUpper = true := by
    rw [isUpper_toNat]
    simp [h1, h2]
  simp only [Char.isAlpha, hu, Bool.true_or] at h
  cases h

theorem titleChars_map_toLower (b : Bool) (l : List Char) :
    titleChars b (l.map Char.toLower) = titleChars b l := by
  induction l generalizing b with
  | nil => rfl
  | cons c cs ih =>
    rw [List.map_cons]
    simp only [titleChars]
    rw [isAlpha_toLower]
    by_cases ha : c.isAlpha = true
    · rw [if_pos ha, if_pos ha, toLower_toLower, toUpper_toLower, ih]
    · rw [if_neg ha, if_neg ha, not_alpha_toLower (by simpa using ha), ih]

theorem pyTitle_pyLower (s : String) : pyTitle (pyLower s) = pyTitle s := by
  simp only [pyTitle, pyLower]
  rw [titleChars_map_toLower]

theorem pyStrip_idem (s : String) : pyStrip (pyStrip s) = pyStrip s := by
  simp only [pyStrip]
  rw [stripChars_idem]

theorem pyStrip_pyLower (s : String) : pyStrip (pyLower s) = pyLower (pyStrip s) := by
  simp only [pyStrip, pyLower]
  rw [stripChars_map_toLower]

theorem prettify_normalize (item : String) :
    prettify_name (normalize_item_key item) = prettify_name item := by
  unfold prettify_name normalize_item_key
  rw [pyStrip_pyLower, pyStrip_idem, pyTitle_pyLower]

/-! ## Resolver case equations -/

theorem classify_hit {api_key : Bool} {o : Oracle} {c : Cache} {item : String} {r : CacheRecord}
    (h : get_cached_item c (normalize_item_key item) = some r) :
    classify_item_with_cache api_key o c item = ⟨(r.category, r.normalized_name, r.source), c, 0⟩ := by
  unfold classify_item_with_cache
  simp only
  rw [h]

theorem classify_miss_ok_not_misc {api_key : Bool} {o : Oracle} {c : Cache} {item : String}
    {category norm : String}
    (h : get_cached_item c (normalize_item_key item) = none)
    (ha : (ai_fallback_classify api_key o item).result = Except.ok (category, norm))
    (hc : category ≠ "Misc") :
    classify_item_with_cache api_key o c item
      = ⟨(category, norm, "ai"), cache_item c (normalize_item_key item) category norm "ai", 1⟩ := by
  unfold classify_item_with_cache
  simp only
  rw [h, ha]
  simp only [if_pos hc]

theorem classify_miss_ok_misc {api_key : Bool} {o : Oracle} {c : Cache} {item : String}
    {norm : String}
    (h : get_cached_item c (normalize_item_key item) = none)
    (ha : (ai_fallback_classify api_key o item).result = Except.ok ("Misc", norm)) :
    classify_item_with_cache api_key o c item = ⟨("Misc", norm, "ai"), c, 0⟩ := by
  unfold classify_item_with_cache
  simp only
  rw [h, ha]
  simp

theorem classify_miss_error {api_key : Bool} {o : Oracle} {c : Cache} {item : String}
    (h : get_cached_item c (normalize_item_key item) = none)
    (ha : (ai_fallback_classify api_key o item).result = Except.error ()) :
    classify_item_with_cache api_key o c item
      = ⟨("Misc", prettify_name (normalize_item_key item), "fallback"), c, 0⟩ := by
  unfold classify_item_with_cache
  simp only
  rw [h, ha]

/-! ## Claim theorems: cache invariants -/

/-- C10: `override_item` is unconditional — after the call the cache maps the
normalized key (trimmed, lowercased item) to exactly
`(category, normalized_name, "manual")`, replacing whatever record was there
before (even an existing manual one), and every other key is untouched. -/
theorem override_item_unconditional (c : Cache) (item category normalized_name k : String) :
    get_cached_item (override_item c item category normalized_name) k
      = if k = normalize_item_key item
        then some ⟨category, normalized_name, "manual"⟩
        else get_cached_item c k := by
  unfold override_item
  simp only
  induction c with
  | nil =>
    simp only [List.filter_nil, List.nil_append]
    rw [get_cached_item_singleton]
    by_cases hk : k = normalize_item_key item
    · subst hk
      simp
    · have hb : (normalize_item_key item == k) = false := by
        simp
        exact fun h => hk h.symm
      rw [hb, if_neg hk]
      simp [get_cached_item]
  | cons p t ih =>
    rw [List.filter_cons]
    by_cases hp : (!(p.1 == normalize_item_key item)) = true
    · rw [if_pos hp, List.cons_append, get_cached_item_cons, get_cached_item_cons]
      by_cases hpk : (p.1 == k) = true
      · rw [if_pos hpk, if_pos hpk]
        have hByte : ¬ (p.1 == normalize_item_key item) = true := by simpa using hp
        have hk : ¬ k = normalize_item_key item := by
          intro he
          apply hByte
          have hp1 : p.1 = k := by simpa using hpk
          rw [hp1, he]
          simp
        rw [if_neg hk]
      · rw [if_neg hpk, if_neg hpk]
        exact ih
    · rw [if_neg hp]
      have hpkey : (p.1 == normalize_item_key item) = true := by simpa using hp
      rw [ih, get_cached_item_cons]
      by_cases hk : k = normalize_item_key item
      · rw [if_pos hk, if_pos hk]
      · rw [if_neg hk, if_neg hk]
        have hne : (p.1 == k) = false := by
          have hp1 : p.1 = normalize_item_key item := by simpa using hpkey
          rw [hp1]
          simp
          exact fun h => hk h.symm
        rw [hne]
        simp

/-- C1: manual-override protection — when the cache holds a record with
`source = "manual"` under key `k`, an automated `cache_item` write (as issued
by resolution with source `"ai"`) leaves that record untouched, and so does
every subsequent `classify_item_with_cache` call, whatever the item and
whatever the external service does. -/
theorem manual_record_immutable (api_key : Bool) (o : Oracle) (c : Cache)
    (item k category normalized_name : String) (r : CacheRecord)
    (hk : get_cached_item c k = some r) (hman : r.source = "manual") :
    get_cached_item (cache_item c item category normalized_name "ai") k = some r
    ∧ get_cached_item (classify_item_with_cache api_key o c item).cache k = some r := by
  constructor
  · exact cache_item_manual_frame hk hman _ _ _ _
  · cases hl : get_cached_item c (normalize_item_key item) with
    | some r2 =>
      rw [classify_hit hl]
      exact hk
    | none =>
      cases har : (ai_fallback_classify api_key o item).result with
      | error e =>
        cases e
        rw [classify_miss_error hl har]
        exact hk
      | ok pr =>
        obtain ⟨cat, norm⟩ := pr
        by_cases hc : cat = "Misc"
        · subst hc
          rw [classify_miss_ok_misc hl har]
          exact hk
        · rw [classify_miss_ok_not_misc hl har hc]
          exact cache_item_manual_frame hk hman _ _ _ _

/-- Witness for C1 at a concrete state: a manual record for `"milk"` survives
both a direct `"ai"` write and a full resolution of `"milk"`. -/
theorem manual_record_immutable_witness :
    get_cached_item
        (cache_item [("milk", ⟨"Beverages", "Oat Milk", "manual"⟩)] "milk" "Dairy" "Milk" "ai")
        "milk" = some ⟨"Beverages", "Oat Milk", "manual"⟩
    ∧ get_cached_item
        (classify_item_with_cache false oracleOffline
          [("milk", ⟨"Beverages", "Oat Milk", "manual"⟩)] "milk").cache
        "milk" = some ⟨"Beverages", "Oat Milk", "manual"⟩ :=
  manual_record_immutable false oracleOffline [("milk", ⟨"Beverages", "Oat Milk", "manual"⟩)]
    "milk" "milk" "Dairy" "Milk" ⟨"Beverages", "Oat Milk", "manual"⟩ (by decide) (by decide)

/-! ## Claim theorems: resolver write behaviour -/

/-- C2: `Misc` is never persisted — on a cache miss, a `Misc` outcome leaves
the cache unchanged (zero writes) so a later resolution still misses, while a
non-`Misc` outcome issues exactly one write storing the normalized key with
source `"ai"`. -/
theorem misc_never_persisted (api_key : Bool) (o : Oracle) (c : Cache) (item category norm : String)
    (hmiss : get_cached_item c (normalize_item_key item) = none)
    (ha : (ai_fallback_classify api_key o item).result = Except.ok (category, norm)) :
    (category = "Misc" →
      (classify_item_with_cache api_key o c item).cache = c
      ∧ (classify_item_with_cache api_key o c item).writes = 0
      ∧ get_cached_item (classify_item_with_cache api_key o c item).cache
          (normalize_item_key item) = none)
    ∧ (category ≠ "Misc" →
      (classify_item_with_cache api_key o c item).writes = 1
      ∧ (classify_item_with_cache api_key o c item).cache
          = c ++ [(normalize_item_key item, ⟨category, norm, "ai"⟩)]
      ∧ get_cached_item (classify_item_with_cache api_key o c item).cache
          (normalize_item_key item) = some ⟨category, norm, "ai"⟩) := by
  constructor
  · intro hc
    subst hc
    rw [classify_miss_ok_misc hmiss ha]
    exact ⟨rfl, rfl, hmiss⟩
  · intro hc
    rw [classify_miss_ok_not_misc hmiss ha hc]
    dsimp only
    have hm2 : get_cached_item c (normalize_item_key (normalize_item_key item)) = none := by
      rw [normalize_item_key_idem]
      exact hmiss
    have hci : cache_item c (normalize_item_key item) category norm "ai"
        = c ++ [(normalize_item_key item, ⟨category, norm, "ai"⟩)] := by
      rw [cache_item_miss hm2, normalize_item_key_idem]
    refine ⟨rfl, hci, ?_⟩
    rw [hci, get_cached_item_append_none hmiss, get_cached_item_singleton]
    simp

/-- Witness for C2: classifying uncached `"banana"` with no credential stores
`(banana, Produce, Banana, ai)` in one write. -/
theorem misc_never_persisted_witness :
    ((("Produce" : String) = "Misc" →
      (classify_item_with_cache false oracleOffline [] "banana").cache = []
      ∧ (classify_item_with_cache false oracleOffline [] "banana").writes = 0
      ∧ get_cached_item (classify_item_with_cache false oracleOffline [] "banana").cache
          (normalize_item_key "banana") = none)
    ∧ (("Produce" : String) ≠ "Misc" →
      (classify_item_with_cache false oracleOffline [] "banana").writes = 1
      ∧ (classify_item_with_cache false oracleOffline [] "banana").cache
          = [] ++ [(normalize_item_key "banana", ⟨"Produce", "Banana", "ai"⟩)]
      ∧ get_cached_item (classify_item_with_cache false oracleOffline [] "banana").cache
          (normalize_item_key "banana") = some ⟨"Produce", "Banana", "ai"⟩)) :=
  misc_never_persisted false oracleOffline [] "banana" "Produce" "Banana" (by decide) (by decide)

/-- C3 counterexample: `"quirky item"` (no credential) resolves to `Misc`
with nothing persisted, so the second resolution is again a cache miss and
re-runs classification — it is not "served from the cache" as claimed. -/
theorem idempotence_counterexample :
    (classify_item_with_cache false oracleOffline [] "quirky item").result
      = ("Misc", "Quirky Item", "ai")
    ∧ get_cached_item (classify_item_with_cache false oracleOffline [] "quirky item").cache
        (normalize_item_key "quirky item") = none := by
  decide

/-- C3 amended: resolving the same item twice in succession (same external
behaviour, no intervening override) returns an identical result the second
time with no further cache change and no write; the second call is a cache
hit serving the stored record whenever the first result's category is not
`Misc` — a `Misc` result is not cached, so that second call re-runs
classification instead. -/
theorem resolve_idempotent_amended (api_key : Bool) (o : Oracle) (c : Cache) (item : String) :
    classify_item_with_cache api_key o (classify_item_with_cache api_key o c item).cache item
      = ⟨(classify_item_with_cache api_key o c item).result,
         (classify_item_with_cache api_key o c item).cache, 0⟩
    ∧ ((classify_item_with_cache api_key o c item).result.1 ≠ "Misc" →
        get_cached_item (classify_item_with_cache api_key o c item).cache (normalize_item_key item)
          = some ⟨(classify_item_with_cache api_key o c item).result.1,
                  (classify_item_with_cache api_key o c item).result.2.1,
                  (classify_item_with_cache api_key o c item).result.2.2⟩) := by
  cases hl : get_cached_item c (normalize_item_key item) with
  | some r =>
    rw [classify_hit hl]
    dsimp only
    constructor
    · rw [classify_hit hl]
    · intro _
      exact hl
  | none =>
    cases har : (ai_fallback_classify api_key o item).result with
    | error e =>
      cases e
      rw [classify_miss_error hl har]
      dsimp only
      constructor
      · rw [classify_miss_error hl har]
      · intro h
        exact absurd rfl h
    | ok pr =>
      obtain ⟨cat, norm⟩ := pr
      by_cases hc : cat = "Misc"
      · subst hc
        rw [classify_miss_ok_misc hl har]
        dsimp only
        constructor
        · rw [classify_miss_ok_misc hl har]
        · intro h
          exact absurd rfl h
      · rw [classify_miss_ok_not_misc hl har hc]
        dsimp only
        have hm2 : get_cached_item c (normalize_item_key (normalize_item_key item)) = none := by
          rw [normalize_item_key_idem]
          exact hl
        have hci : cache_item c (normalize_item_key item) cat norm "ai"
            = c ++ [(normalize_item_key item, ⟨cat, norm, "ai"⟩)] := by
          rw [cache_item_miss hm2, normalize_item_key_idem]
        have hlook : get_cached_item (cache_item c (normalize_item_key item) cat norm "ai")
            (normalize_item_key item) = some ⟨cat, norm, "ai"⟩ := by
          rw [hci, get_cached_item_append_none hl, get_cached_item_singleton]
          simp
        constructor
        · rw [classify_hit hlook]
        · intro _
          exact hlook

/-- C9: when the key is uncached and the classification step raises, the
resolver degrades to `(Misc, title-cased raw item, "fallback")` with no cache
write and no propagated error. -/
theorem resolve_never_fails (api_key : Bool) (o : Oracle) (c : Cache) (item : String)
    (hmiss : get_cached_item c (normalize_item_key item) = none)
    (herr : (ai_fallback_classify api_key o item).result = Except.error ()) :
    classify_item_with_cache api_key o c item
      = ⟨("Misc", prettify_name item, "fallback"), c, 0⟩ := by
  rw [classify_miss_error hmiss herr, prettify_normalize]

/-- Witness for C9: a parsed upstream dict lacking the `category` field makes
`ai_fallback_classify` raise, and resolution of `"gizmo"` degrades to the
fallback triple with the cache untouched. -/
theorem resolve_never_fails_witness :
    classify_item_with_cache true ⟨LLMResult.ok (some ⟨none, some "Gizmo"⟩),
        LLMResult.noClient, LLMResult.noClient⟩ [] "gizmo"
      = ⟨("Misc", prettify_name "gizmo", "fallback"), [], 0⟩ :=
  resolve_never_fails true ⟨LLMResult.ok (some ⟨none, some "Gizmo"⟩),
    LLMResult.noClient, LLMResult.noClient⟩ [] "gizmo" (by decide) (by decide)

/-! ## Claim theorems: the heuristic classifier -/

theorem perm_any_eq {l1 l2 : List α} (p : α → Bool) (h : l1.Perm l2) : l1.any p = l2.any p := by
  cases ha : l2.any p
  · rw [List.any_eq_false] at ha ⊢
    intro x hx
    exact ha x (h.mem_iff.mp hx)
  · rw [List.any_eq_true] at ha ⊢
    obtain ⟨x, hx, hpx⟩ := ha
    exact ⟨x, h.mem_iff.mpr hx, hpx⟩

theorem any_sortLenDesc (l : List String) (p : String → Bool) :
    (sortLenDesc l).any p = l.any p :=
  perm_any_eq p (List.perm_insertionSort _ l)

/-- The longest-first ordering inside a bucket never changes which bucket
matches: the scan returns the first bucket any of whose keywords occurs in
the lowered item, `Misc` when none does. -/
theorem heuristic_scan_eq (lowered item : String) :
    heuristic_scan lowered item
      = ((HEURISTIC_BUCKETS.find? (fun b => b.2.any (fun kw => strContains lowered kw))).elim
           "Misc" Prod.fst,
         truncate3 (prettify_name item)) := by
  unfold heuristic_scan
  have hpred : (fun b : String × List String => (sortLenDesc b.2).any (fun kw => strContains lowered kw))
      = (fun b : String × List String => b.2.any (fun kw => strContains lowered kw)) := by
    funext b
    rw [any_sortLenDesc]
  rw [hpred]
  cases HEURISTIC_BUCKETS.find? (fun b => b.2.any (fun kw => strContains lowered kw)) with
  | none => rfl
  | some b => rfl

/-- C4 counterexample: uncached, with no credential configured, the item
`"ice cream sandwich"` classifies to `Dairy` — the `Dairy` bucket's keyword
`"cream"` matches and `Dairy` precedes `Frozen` in the bucket table — never
to `Frozen` as the claim states. -/
theorem longest_match_counterexample :
    (ai_fallback_classify false oracleOffline "ice cream sandwich").result
      = Except.ok ("Dairy", "Ice Cream Sandwich")
    ∧ ("Dairy" : String) ≠ "Frozen" := by
  decide

/-- C4 amended: with no credential the classifier returns the first matching
bucket's category (the within-bucket longest-first keyword order cannot
change which bucket matches), defaulting to `Misc`; in particular
`"ice cream sandwich"` returns `Dairy` via the keyword `"cream"` of the
earlier `Dairy` bucket, not `Frozen`. -/
theorem heuristic_first_bucket (o : Oracle) (item : String) :
    (ai_fallback_classify false o item).result
      = Except.ok
          ((HEURISTIC_BUCKETS.find? (fun b =>
              b.2.any (fun kw => strContains (pyLower (pyStrip item)) kw))).elim "Misc" Prod.fst,
           truncate3 (prettify_name item))
    ∧ (ai_fallback_classify false o "ice cream sandwich").result
        = Except.ok ("Dairy", "Ice Cream Sandwich") := by
  constructor
  · have h0 : ai_fallback_classify false o item
        = ⟨Except.ok (heuristic_scan (pyLower (pyStrip item)) item), 0, 0, 0⟩ := rfl
    rw [h0]
    dsimp only
    rw [heuristic_scan_eq]
  · have h0 : ai_fallback_classify false o "ice cream sandwich"
        = ⟨Except.ok (heuristic_scan (pyLower (pyStrip "ice cream sandwich")) "ice cream sandwich"),
           0, 0, 0⟩ := rfl
    rw [h0]
    decide

/-! ## Claim theorems: the escalation chain -/

theorem retryResult_cases (o : Oracle) :
    ((retryResult o).2 = 0 ∧ (retryResult o).1 = o.primary)
    ∨ ((retryResult o).2 = 1 ∧ (retryResult o).1 = o.alternative
        ∧ o.primary = LLMResult.resourceExhausted) := by
  cases h : o.primary <;> simp [retryResult, h]

/-- C5 counterexample: a primary response whose parsed category is
`"miscellaneous"` — which is not a validated `Misc` result (it title-cases to
`"Miscellaneous"`, not one of the twelve categories) — still triggers the
upgrade-model call, because the code tests `cat[:4] == 'Misc'` before
validation. -/
theorem escalation_trigger_counterexample :
    (ai_fallback_classify true
        ⟨LLMResult.ok (some ⟨some "miscellaneous", some "weird thing"⟩),
         LLMResult.noClient, LLMResult.exception⟩ "weird thing").upgradeCalls = 1
    ∧ prettify_name "miscellaneous" = "Miscellaneous"
    ∧ ALLOWED_CATEGORIES.contains "Miscellaneous" = false
    ∧ ("Miscellaneous" : String) ≠ "Misc" := by
  decide


/-- With a credential, a run makes exactly one primary call, `(retryResult o).2`
alternative calls, and an upgrade call only when the retried status parsed to
a dict whose title-cased category starts with `"Misc"`. -/
theorem ai_run_shape (o : Oracle) (item : String) :
    ∃ res alt upg, ai_fallback_classify true o item = ⟨res, 1, alt, upg⟩
      ∧ alt = (retryResult o).2 ∧ upg ≤ 1
      ∧ (upg = 1 → ∃ d cs, parsedDict (retryResult o).1 = some d ∧ d.category = some cs
            ∧ slice4 (prettify_name cs) = "Misc") := by
  unfold ai_fallback_classify
  rw [if_pos rfl]
  dsimp only
  split
  · exact ⟨_, _, _, rfl, rfl, by simp, by simp⟩
  · rename_i d hd
    split
    · exact ⟨_, _, _, rfl, rfl, by simp, by simp⟩
    · rename_i cat0 hcat
      split
      · exact ⟨_, _, _, rfl, rfl, by simp, by simp⟩
      · rename_i norm0 hnorm
        split
        · rename_i hm
          have hex : ∃ d2 cs, parsedDict (retryResult o).1 = some d2 ∧ d2.category = some cs
              ∧ slice4 (prettify_name cs) = "Misc" := by
            cases hdc : d.category with
            | none =>
              rw [hdc] at hcat
              exact absurd hcat (by simp [prettifyField])
            | some cs =>
              rw [hdc] at hcat
              simp only [prettifyField, Except.ok.injEq] at hcat
              exact ⟨d, cs, hd, hdc, by rw [hcat]; exact hm⟩
          split
          · split
            · exact ⟨_, _, _, rfl, rfl, by simp, fun _ => hex⟩
            · split
              · exact ⟨_, _, _, rfl, rfl, by simp, fun _ => hex⟩
              · exact ⟨_, _, _, rfl, rfl, by simp, fun _ => hex⟩
          · exact ⟨_, _, _, rfl, rfl, by simp, fun _ => hex⟩
          · exact ⟨_, _, _, rfl, rfl, by simp, fun _ => hex⟩
        · exact ⟨_, _, _, rfl, rfl, by simp, by simp⟩

/-- C5 amended: every run makes at most one primary, one alternative and one
upgrade call (at most three in total, zero without a credential); the
alternative call happens only after the primary reports
`RESOURCE_EXHAUSTED`; the upgrade call happens only after a parsed response
whose title-cased category begins with `"Misc"` (`cat[:4] == 'Misc'`,
checked before validation — not necessarily a validated `Misc` result), and
being total, every run of the chain and of the resolver terminates. -/
theorem escalation_bound_amended (api_key : Bool) (o : Oracle) (item : String) :
    (ai_fallback_classify api_key o item).primaryCalls ≤ 1
    ∧ (ai_fallback_classify api_key o item).altCalls ≤ 1
    ∧ (ai_fallback_classify api_key o item).upgradeCalls ≤ 1
    ∧ (ai_fallback_classify api_key o item).primaryCalls
        + (ai_fallback_classify api_key o item).altCalls
        + (ai_fallback_classify api_key o item).upgradeCalls ≤ 3
    ∧ (api_key = false →
        (ai_fallback_classify api_key o item).primaryCalls = 0
        ∧ (ai_fallback_classify api_key o item).altCalls = 0
        ∧ (ai_fallback_classify api_key o item).upgradeCalls = 0)
    ∧ ((ai_fallback_classify api_key o item).altCalls = 1
        → o.primary = LLMResult.resourceExhausted)
    ∧ ((ai_fallback_classify api_key o item).upgradeCalls = 1
        → ∃ d cs, parsedDict (retryResult o).1 = some d ∧ d.category = some cs
            ∧ slice4 (prettify_name cs) = "Misc") := by
  have halt : (retryResult o).2 ≤ 1 := by
    rcases retryResult_cases o with ⟨h2, _⟩ | ⟨h2, _, _⟩ <;> simp [h2]
  have htrig : (retryResult o).2 = 1 → o.primary = LLMResult.resourceExhausted := by
    rcases retryResult_cases o with ⟨h2, _⟩ | ⟨_, _, hp⟩
    · intro h
      rw [h2] at h
      cases h
    · intro _
      exact hp
  cases api_key with
  | false =>
    have h0 : ai_fallback_classify false o item
        = ⟨Except.ok (heuristic_scan (pyLower (pyStrip item)) item), 0, 0, 0⟩ := rfl
    rw [h0]
    exact ⟨by simp, by simp, by simp, by simp, fun _ => ⟨rfl, rfl, rfl⟩, by simp, by simp⟩
  | true =>
    obtain ⟨res, alt, upg, heq, halt2, hupg, htrig2⟩ := ai_run_shape o item
    rw [heq]
    dsimp only
    subst halt2
    refine ⟨by simp, halt, hupg, by omega, ?_, htrig, htrig2⟩
    intro h
    cases h

/-- Category `"Misc"` is an allowed category, so validation accepts it as-is. -/
theorem finishValidate_misc (nm lw it : String) :
    finishValidate "Misc" nm lw it = ("Misc", truncate3 nm) := by
  unfold finishValidate
  rw [if_pos (by decide)]

/-- After a post-retry (primary or alternative) response validating to
`Misc`, an upgrade call that yields no parsed dict leaves the earlier values
in place. -/
theorem chain_upgrade_noparse (o : Oracle) (item c1 n1 : String)
    (hp : parsedDict (retryResult o).1 = some ⟨some c1, some n1⟩)
    (hmisc : prettify_name c1 = "Misc")
    (hu : parsedDict o.upgrade = none) :
    ai_fallback_classify true o item
      = ⟨Except.ok ("Misc", truncate3 (prettify_name n1)), 1, (retryResult o).2, 1⟩ := by
  unfold ai_fallback_classify
  rw [if_pos rfl]
  dsimp only
  rw [hp]
  dsimp only [prettifyField]
  rw [hmisc]
  rw [if_pos (show slice4 "Misc" = "Misc" from rfl)]
  cases hu2 : o.upgrade with
  | ok dopt =>
    cases dopt with
    | none =>
      dsimp only
      rw [finishValidate_misc]
    | some d2 =>
      rw [hu2] at hu
      simp [parsedDict] at hu
  | resourceExhausted =>
    dsimp only
    rw [finishValidate_misc]
  | exception =>
    dsimp only
    rw [finishValidate_misc]
  | noClient =>
    dsimp only
    rw [finishValidate_misc]

/-- After a post-retry (primary or alternative) response validating to
`Misc`, an upgrade call that parses with both fields replaces the
category/name and the replacement is validated. -/
theorem chain_upgrade_parsed (o : Oracle) (item c1 n1 c2 n2 : String)
    (hp : parsedDict (retryResult o).1 = some ⟨some c1, some n1⟩)
    (hmisc : prettify_name c1 = "Misc")
    (hu : o.upgrade = LLMResult.ok (some ⟨some c2, some n2⟩)) :
    ai_fallback_classify true o item
      = ⟨Except.ok (finishValidate (prettify_name c2) (prettify_name n2)
            (pyLower (pyStrip item)) item), 1, (retryResult o).2, 1⟩ := by
  unfold ai_fallback_classify
  rw [if_pos rfl]
  dsimp only
  rw [hp]
  dsimp only [prettifyField]
  rw [hmisc]
  rw [if_pos (show slice4 "Misc" = "Misc" from rfl)]
  rw [hu]

/-- After a post-retry (primary or alternative) response validating to
`Misc`, an upgrade dict lacking `category` raises (`None.strip()`). -/
theorem chain_upgrade_badcat (o : Oracle) (item c1 n1 : String) (d2 : AiDict)
    (hp : parsedDict (retryResult o).1 = some ⟨some c1, some n1⟩)
    (hmisc : prettify_name c1 = "Misc")
    (hu : o.upgrade = LLMResult.ok (some d2)) (hcat : d2.category = none) :
    ai_fallback_classify true o item = ⟨Except.error (), 1, (retryResult o).2, 1⟩ := by
  unfold ai_fallback_classify
  rw [if_pos rfl]
  dsimp only
  rw [hp]
  dsimp only [prettifyField]
  rw [hmisc]
  rw [if_pos (show slice4 "Misc" = "Misc" from rfl)]
  rw [hu]
  dsimp only
  rw [hcat]

/-- After a post-retry (primary or alternative) response validating to
`Misc`, an upgrade dict lacking `normalized_name` raises. -/
theorem chain_upgrade_badnorm (o : Oracle) (item c1 n1 c2 : String) (d2 : AiDict)
    (hp : parsedDict (retryResult o).1 = some ⟨some c1, some n1⟩)
    (hmisc : prettify_name c1 = "Misc")
    (hu : o.upgrade = LLMResult.ok (some d2)) (hcat : d2.category = some c2)
    (hnorm : d2.normalized_name = none) :
    ai_fallback_classify true o item = ⟨Except.error (), 1, (retryResult o).2, 1⟩ := by
  unfold ai_fallback_classify
  rw [if_pos rfl]
  dsimp only
  rw [hp]
  dsimp only [prettifyField]
  rw [hmisc]
  rw [if_pos (show slice4 "Misc" = "Misc" from rfl)]
  rw [hu]
  dsimp only
  rw [hcat]
  dsimp only
  rw [hnorm]

/-- C6 counterexample: primary validates to `Misc` for `"milk"`; the upgrade
response parses to the disallowed category `"Vegetables"`; the chain does
not accept `Misc` — it falls through to the keyword heuristic and returns
`Dairy`. -/
theorem upgrade_accepts_misc_counterexample :
    (ai_fallback_classify true
        ⟨LLMResult.ok (some ⟨some "Misc", some "milk"⟩), LLMResult.noClient,
         LLMResult.ok (some ⟨some "Vegetables", some "milk"⟩)⟩ "milk").result
      = Except.ok ("Dairy", "Milk")
    ∧ ("Dairy" : String) ≠ "Misc" := by
  decide

/-- C6 amended: after the primary/alternative response — the response in
force after the quota retry, whether it came from the primary tier or, on
`RESOURCE_EXHAUSTED`, from the alternative tier — validates to `Misc`,
exactly one upgrade call is made with the same prompt; `Misc` is accepted
when the upgrade yields no parsed dict or itself validates to `Misc`; but an
upgrade parse with a disallowed category falls through to the keyword
heuristic instead of accepting `Misc`, and an upgrade dict with a missing
field raises (the resolver then degrades to its `Misc`/fallback triple). -/
theorem upgrade_escalation_amended (o : Oracle) (item c1 n1 : String)
    (hp : parsedDict (retryResult o).1 = some ⟨some c1, some n1⟩)
    (hmisc : prettify_name c1 = "Misc") :
    (ai_fallback_classify true o item).upgradeCalls = 1
    ∧ (parsedDict o.upgrade = none →
        (ai_fallback_classify true o item).result
          = Except.ok ("Misc", truncate3 (prettify_name n1)))
    ∧ (∀ c2 n2, o.upgrade = LLMResult.ok (some ⟨some c2, some n2⟩) →
        prettify_name c2 = "Misc" →
        (ai_fallback_classify true o item).result
          = Except.ok ("Misc", truncate3 (prettify_name n2)))
    ∧ (∀ c2 n2, o.upgrade = LLMResult.ok (some ⟨some c2, some n2⟩) →
        ALLOWED_CATEGORIES.contains (prettify_name c2) = false →
        (ai_fallback_classify true o item).result
          = Except.ok (heuristic_scan (pyLower (pyStrip item)) item))
    ∧ (∀ d2, o.upgrade = LLMResult.ok (some d2) → d2.category = none →
        (ai_fallback_classify true o item).result = Except.error ()) := by
  refine ⟨?_, ?_, ?_, ?_, ?_⟩
  · cases hu : o.upgrade with
    | ok dopt =>
      cases dopt with
      | none =>
        rw [chain_upgrade_noparse o item c1 n1 hp hmisc (by simp [parsedDict, hu])]
      | some d2 =>
        cases hc2 : d2.category with
        | none =>
          rw [chain_upgrade_badcat o item c1 n1 d2 hp hmisc hu hc2]
        | some c2 =>
          cases hn2 : d2.normalized_name with
          | none =>
            rw [chain_upgrade_badnorm o item c1 n1 c2 d2 hp hmisc hu hc2 hn2]
          | some n2 =>
            have hd2 : d2 = ⟨some c2, some n2⟩ := by
              cases d2
              simp_all
            rw [hd2] at hu
            rw [chain_upgrade_parsed o item c1 n1 c2 n2 hp hmisc hu]
    | resourceExhausted =>
      rw [chain_upgrade_noparse o item c1 n1 hp hmisc (by simp [parsedDict, hu])]
    | exception =>
      rw [chain_upgrade_noparse o item c1 n1 hp hmisc (by simp [parsedDict, hu])]
    | noClient =>
      rw [chain_upgrade_noparse o item c1 n1 hp hmisc (by simp [parsedDict, hu])]
  · intro hnu
    rw [chain_upgrade_noparse o item c1 n1 hp hmisc hnu]
  · intro c2 n2 hu hm2
    rw [chain_upgrade_parsed o item c1 n1 c2 n2 hp hmisc hu]
    dsimp only
    rw [hm2, finishValidate_misc]
  · intro c2 n2 hu hbad
    rw [chain_upgrade_parsed o item c1 n1 c2 n2 hp hmisc hu]
    dsimp only
    unfold finishValidate
    rw [if_neg (by rw [hbad]; exact Bool.false_ne_true)]
  · intro d2 hu hc2
    rw [chain_upgrade_badcat o item c1 n1 d2 hp hmisc hu hc2]

/-- Witness for C6 on the alternative-tier path: the primary reports
`RESOURCE_EXHAUSTED`, the alternative model answers `misc` (validated
`Misc`) for `"odd item"`, and the upgrade call raises an exception. -/
theorem upgrade_escalation_amended_witness :
    (ai_fallback_classify true ⟨LLMResult.resourceExhausted,
        LLMResult.ok (some ⟨some "misc", some "odd item"⟩),
        LLMResult.exception⟩ "odd item").upgradeCalls = 1
    ∧ (parsedDict (LLMResult.exception : LLMResult) = none →
        (ai_fallback_classify true ⟨LLMResult.resourceExhausted,
            LLMResult.ok (some ⟨some "misc", some "odd item"⟩),
            LLMResult.exception⟩ "odd item").result
          = Except.ok ("Misc", truncate3 (prettify_name "odd item")))
    ∧ (∀ c2 n2, (LLMResult.exception : LLMResult) = LLMResult.ok (some ⟨some c2, some n2⟩) →
        prettify_name c2 = "Misc" →
        (ai_fallback_classify true ⟨LLMResult.resourceExhausted,
            LLMResult.ok (some ⟨some "misc", some "odd item"⟩),
            LLMResult.exception⟩ "odd item").result
          = Except.ok ("Misc", truncate3 (prettify_name n2)))
    ∧ (∀ c2 n2, (LLMResult.exception : LLMResult) = LLMResult.ok (some ⟨some c2, some n2⟩) →
        ALLOWED_CATEGORIES.contains (prettify_name c2) = false →
        (ai_fallback_classify true ⟨LLMResult.resourceExhausted,
            LLMResult.ok (some ⟨some "misc", some "odd item"⟩),
            LLMResult.exception⟩ "odd item").result
          = Except.ok (heuristic_scan (pyLower (pyStrip "odd item")) "odd item"))
    ∧ (∀ d2, (LLMResult.exception : LLMResult) = LLMResult.ok (some d2) → d2.category = none →
        (ai_fallback_classify true ⟨LLMResult.resourceExhausted,
            LLMResult.ok (some ⟨some "misc", some "odd item"⟩),
            LLMResult.exception⟩ "odd item").result = Except.error ()) :=
  upgrade_escalation_amended
    ⟨LLMResult.resourceExhausted, LLMResult.ok (some ⟨some "misc", some "odd item"⟩),
     LLMResult.exception⟩
    "odd item" "misc" "odd item" (by decide) (by decide)

/-! ## Claim theorems: store layout resolution -/

/-- C7: the layout query has no location filter.  With store `"Wegmans"`
(id 1) owning two locations — location 1 (zone `"A"` holding `Produce`) and
location 2 (zone `"B"` holding `Dairy`) — resolving the name without a
postal code yields store id 1, but `get_store_layout` returns the zones of
BOTH locations, not the layout of the first-registered location only, and
its own docstring says it "picks the first matching location ... and
returns its layout". -/
theorem layout_merges_all_locations :
    get_store_id
        ⟨[⟨1, "Wegmans", some "Wegmans"⟩],
         [⟨1, 1, none, none, some "07054"⟩, ⟨2, 1, none, none, some "07006"⟩],
         [⟨1, 1, "A", 1⟩, ⟨2, 2, "B", 2⟩],
         [⟨1, "Produce"⟩, ⟨2, "Dairy"⟩]⟩ "Wegmans" = Except.ok 1
    ∧ get_store_layout
        ⟨[⟨1, "Wegmans", some "Wegmans"⟩],
         [⟨1, 1, none, none, some "07054"⟩, ⟨2, 1, none, none, some "07006"⟩],
         [⟨1, 1, "A", 1⟩, ⟨2, 2, "B", 2⟩],
         [⟨1, "Produce"⟩, ⟨2, "Dairy"⟩]⟩ 1 = [("A", ["Produce"]), ("B", ["Dairy"])]
    ∧ get_store_layout
        ⟨[⟨1, "Wegmans", some "Wegmans"⟩],
         [⟨1, 1, none, none, some "07054"⟩, ⟨2, 1, none, none, some "07006"⟩],
         [⟨1, 1, "A", 1⟩, ⟨2, 2, "B", 2⟩],
         [⟨1, "Produce"⟩, ⟨2, "Dairy"⟩]⟩ 1 ≠ [("A", ["Produce"])] := by
  decide

/-! ## Claim theorems: grouping and ordering -/

theorem groupLookup_cons (p : String × List String) (g : List (String × List String)) (cat : String) :
    groupLookup (p :: g) cat = if p.1 == cat then some p.2 else groupLookup g cat := by
  cases h : (p.1 == cat) <;> simp [groupLookup, List.find?, h]

theorem groupLookup_isSome (g : List (String × List String)) (cat : String) :
    (groupLookup g cat).isSome = g.any (fun p => p.1 == cat) := by
  induction g with
  | nil => rfl
  | cons p t ih =>
    rw [groupLookup_cons, List.any_cons]
    by_cases h : (p.1 == cat) = true
    · rw [if_pos h, h]
      simp
    · have hf : (p.1 == cat) = false := by simpa using h
      rw [if_neg h, hf]
      simp [ih]

theorem groupLookup_mem {g : List (String × List String)} {cat : String} {xs : List String}
    (h : groupLookup g cat = some xs) : ∃ p, p ∈ g ∧ p.2 = xs := by
  unfold groupLookup at h
  cases hf : g.find? (fun p => p.1 == cat) with
  | none =>
    rw [hf] at h
    cases h
  | some p =>
    rw [hf] at h
    simp only [Option.map_some'] at h
    exact ⟨p, List.mem_of_find?_eq_some hf, Option.some.inj h⟩

theorem appendUnder_nonempty {g : List (String × List String)}
    (hg : ∀ e ∈ g, e.2 ≠ []) (k v : String) :
    ∀ e ∈ appendUnder g k v, e.2 ≠ [] := by
  unfold appendUnder
  by_cases hany : g.any (fun p => p.1 == k) = true
  · rw [if_pos hany]
    intro e he
    rw [List.mem_map] at he
    obtain ⟨p, hp, hpe⟩ := he
    by_cases hpk : (p.1 == k) = true
    · rw [if_pos hpk] at hpe
      rw [← hpe]
      simp
    · rw [if_neg hpk] at hpe
      rw [← hpe]
      exact hg p hp
  · rw [if_neg hany]
    intro e he
    rw [List.mem_append] at he
    cases he with
    | inl h => exact hg e h
    | inr h =>
      simp only [List.mem_singleton] at h
      rw [h]
      simp

theorem group_items_nonempty (api_key : Bool) (o : Oracle) :
    ∀ (items : List String) (g : List (String × List String)) (c : Cache),
      (∀ e ∈ g, e.2 ≠ []) → ∀ e ∈ (group_items api_key o (g, c) items).1, e.2 ≠ [] := by
  intro items
  induction items with
  | nil =>
    intro g c hg
    exact hg
  | cons it rest ih =>
    intro g c hg
    exact ih _ _ (appendUnder_nonempty hg _ _)

theorem filterMap_lookup_map_fst (layout : List String) (grouped : List (String × List String)) :
    (layout.filterMap (fun cat => (groupLookup grouped cat).map (fun xs => (cat, xs)))).map Prod.fst
      = layout.filter (fun cat => grouped.any (fun p => p.1 == cat)) := by
  induction layout with
  | nil => rfl
  | cons a t ih =>
    rw [List.filterMap_cons, List.filter_cons]
    have hb : (groupLookup grouped a).isSome = grouped.any (fun p => p.1 == a) :=
      groupLookup_isSome grouped a
    cases h : groupLookup grouped a with
    | none =>
      rw [h] at hb
      rw [← hb]
      simp [ih]
    | some xs =>
      rw [h] at hb
      rw [← hb]
      simp [ih]

theorem emit_groups_spec (layout : List String) (grouped : List (String × List String))
    (hne : ∀ e ∈ grouped, e.2 ≠ []) :
    (emit_groups layout grouped).map Prod.fst
      = layout.filter (fun cat => grouped.any (fun p => p.1 == cat))
        ++ List.insertionSort (fun a b : String => a ≤ b)
            ((grouped.map Prod.fst).filter (fun cat => !(layout.contains cat)))
    ∧ List.Sorted (fun a b : String => a ≤ b)
        (List.insertionSort (fun a b : String => a ≤ b)
          ((grouped.map Prod.fst).filter (fun cat => !(layout.contains cat))))
    ∧ (∀ cat ∈ List.insertionSort (fun a b : String => a ≤ b)
          ((grouped.map Prod.fst).filter (fun cat => !(layout.contains cat))),
        layout.contains cat = false)
    ∧ (∀ e ∈ emit_groups layout grouped, e.2 ≠ [])
    ∧ (∀ e ∈ emit_groups layout grouped, groupLookup grouped e.1 = some e.2) := by
  have hmemsort : ∀ cat ∈ List.insertionSort (fun a b : String => a ≤ b)
      ((grouped.map Prod.fst).filter (fun cat => !(layout.contains cat))),
      cat ∈ (grouped.map Prod.fst).filter (fun cat => !(layout.contains cat)) := by
    intro cat hc
    exact (List.perm_insertionSort _ _).mem_iff.mp hc
  have hsome : ∀ cat ∈ (grouped.map Prod.fst).filter (fun cat => !(layout.contains cat)),
      ∃ xs, groupLookup grouped cat = some xs := by
    intro cat hc
    have hmem : cat ∈ grouped.map Prod.fst := (List.mem_filter.mp hc).1
    have hany : grouped.any (fun p => p.1 == cat) = true := by
      rw [List.any_eq_true]
      rw [List.mem_map] at hmem
      obtain ⟨p, hp, hpe⟩ := hmem
      exact ⟨p, hp, by rw [hpe]; simp⟩
    have := groupLookup_isSome grouped cat
    rw [hany] at this
    exact Option.isSome_iff_exists.mp this
  refine ⟨?_, ?_, ?_, ?_, ?_⟩
  · unfold emit_groups
    dsimp only
    rw [List.map_append, filterMap_lookup_map_fst, List.map_map]
    congr 1
    have : (Prod.fst ∘ fun cat => (cat, (groupLookup grouped cat).getD [])) = id := rfl
    rw [this, List.map_id]
  · exact List.sorted_insertionSort _ _
  · intro cat hc
    have := List.mem_filter.mp (hmemsort cat hc)
    simpa using this.2
  · intro e he
    unfold emit_groups at he
    dsimp only at he
    rw [List.mem_append] at he
    cases he with
    | inl h =>
      rw [List.mem_filterMap] at h
      obtain ⟨cat, _, hcm⟩ := h
      cases hu : groupLookup grouped cat with
      | none =>
        rw [hu] at hcm
        cases hcm
      | some xs =>
        rw [hu] at hcm
        simp only [Option.map_some'] at hcm
        obtain ⟨p, hp, hpx⟩ := groupLookup_mem hu
        have he2 : (cat, xs) = e := Option.some.inj hcm
        have : e.2 = xs := by rw [← he2]
        rw [this, ← hpx]
        exact hne p hp
    | inr h =>
      rw [List.mem_map] at h
      obtain ⟨cat, hcm, hce⟩ := h
      obtain ⟨xs, hxs⟩ := hsome cat (hmemsort cat hcm)
      obtain ⟨p, hp, hpx⟩ := groupLookup_mem hxs
      have : e.2 = xs := by
        rw [← hce]
        simp [hxs]
      rw [this, ← hpx]
      exact hne p hp
  · intro e he
    unfold emit_groups at he
    dsimp only at he
    rw [List.mem_append] at he
    cases he with
    | inl h =>
      rw [List.mem_filterMap] at h
      obtain ⟨cat, _, hcm⟩ := h
      cases hu : groupLookup grouped cat with
      | none =>
        rw [hu] at hcm
        cases hcm
      | some xs =>
        rw [hu] at hcm
        simp only [Option.map_some'] at hcm
        have he2 : (cat, xs) = e := Option.some.inj hcm
        rw [← he2]
        exact hu
    | inr h =>
      rw [List.mem_map] at h
      obtain ⟨cat, hcm, hce⟩ := h
      obtain ⟨xs, hxs⟩ := hsome cat (hmemsort cat hcm)
      rw [← hce]
      dsimp only
      rw [hxs]
      rfl

/-- C8: `order_items` emits the categories present in the flattened layout
first, in flattened-priority order (zones in stored order, first occurrence
of each category only), then every remaining grouped category sorted
lexicographically ascending; no emitted group is empty, and each group holds
exactly the classified items grouped under its category. -/
theorem order_items_emission (db : DB) (store_id : Option Nat) (api_key : Bool) (o : Oracle)
    (c : Cache) (items : List String) :
    (order_items db store_id api_key o c items).map Prod.fst
      = (flatten_layout (match store_id with
          | some sid => get_store_layout db sid
          | none => GENERIC_LAYOUT)).filter (fun cat => ((group_items api_key o ([], c) items).1).any (fun p => p.1 == cat))
        ++ List.insertionSort (fun a b : String => a ≤ b)
        ((((group_items api_key o ([], c) items).1).map Prod.fst).filter (fun cat => !((flatten_layout (match store_id with
          | some sid => get_store_layout db sid
          | none => GENERIC_LAYOUT)).contains cat)))
    ∧ List.Sorted (fun a b : String => a ≤ b) (List.insertionSort (fun a b : String => a ≤ b)
        ((((group_items api_key o ([], c) items).1).map Prod.fst).filter (fun cat => !((flatten_layout (match store_id with
          | some sid => get_store_layout db sid
          | none => GENERIC_LAYOUT)).contains cat))))
    ∧ (∀ cat ∈ List.insertionSort (fun a b : String => a ≤ b)
        ((((group_items api_key o ([], c) items).1).map Prod.fst).filter (fun cat => !((flatten_layout (match store_id with
          | some sid => get_store_layout db sid
          | none => GENERIC_LAYOUT)).contains cat))), (flatten_layout (match store_id with
          | some sid => get_store_layout db sid
          | none => GENERIC_LAYOUT)).contains cat = false)
    ∧ (∀ e ∈ order_items db store_id api_key o c items, e.2 ≠ [])
    ∧ (∀ e ∈ order_items db store_id api_key o c items,
        groupLookup ((group_items api_key o ([], c) items).1) e.1 = some e.2) := by
  have hinit : ∀ e ∈ ([] : List (String × List String)), e.2 ≠ [] := by
    intro e he
    cases he
  have hne := group_items_nonempty api_key o items [] c hinit
  have hord : order_items db store_id api_key o c items
      = emit_groups (flatten_layout (match store_id with
          | some sid => get_store_layout db sid
          | none => GENERIC_LAYOUT)) ((group_items api_key o ([], c) items).1) := rfl
  rw [hord]
  exact emit_groups_spec _ _ hne
